import Mathlib

/-!
Verification of the reproducibility-snapshot builder (`hal.repro`) and the
tracked-access configuration mapping (`hal.config.MemoryDict`).

Python strings are embedded as `List Char` (`PyStr`) where line structure
matters; Python dicts are embedded as association lists with
override-on-insert lookup semantics (`PyDict`).  Filesystem contents and
external command outcomes are parameters of the embedded functions.
-/

namespace Hal


/-- Python `str`, embedded as a list of characters. -/
abbrev PyStr := List Char

/-- Embed a Lean string literal as a `PyStr`. -/
def lit (s : String) : PyStr := s.data

/-- The newline character. -/
def nl : Char := '\n'

/-- Python `dict` with `String` keys, embedded as an association list. -/
abbrev PyDict (V : Type) := List (String × V)

/-- Lookup in an embedded dict (Python `d.get(k)` / `d[k]` success case). -/
def dget {V : Type} (d : PyDict V) (k : String) : Option V :=
  (d.find? (fun p => p.1 == k)).map (·.2)

/-- Key-overriding insertion, the semantics of Python `d[k] = v`. -/
def dinsert {V : Type} (d : PyDict V) (k : String) (v : V) : PyDict V :=
  (k, v) :: d.filter (fun p => !(p.1 == k))

/-- Python `{**d1, **d2}` / `d1 | d2` / `d1.update(d2)`: every entry of `d2`
is inserted into `d1`, later entries overriding earlier ones. -/
def dupdate {V : Type} (d₁ d₂ : PyDict V) : PyDict V :=
  d₂.foldl (fun d p => dinsert d p.1 p.2) d₁

/-- Python `dict(pairs)`: build a dict from a pair list, later pairs winning. -/
def pyDictOf {V : Type} (l : List (String × V)) : PyDict V :=
  l.foldl (fun d p => dinsert d p.1 p.2) []

/-! ## DataDirectoryLister (`repro.data_dir_to_str`) -/

/-- `MAX_DATA_DIR_FILES` from `repro.py`. -/
def MAX_DATA_DIR_FILES : Nat := 50000

/-- Decimal rendering of a natural number, as a Python f-string renders it. -/
def natStr (n : Nat) : PyStr :=
  if h : n < 10 then [Char.ofNat (48 + n)]
  else natStr (n / 10) ++ [Char.ofNat (48 + n % 10)]
decreasing_by exact Nat.div_lt_self (by omega) (by omega)

/-- `data_dir_to_str` from `repro.py`: `all_files` is the list of
relative posix paths of the regular files found under `data_dir` by
`data_dir.glob(..)`, in enumeration order. -/
def data_dir_to_str (data_dir : PyStr) (all_files : List PyStr) : PyStr :=
  if all_files = [] then []
  else
    let s₁ := lit "Data directory: " ++ data_dir ++ [nl]
    let s₂ :=
      if MAX_DATA_DIR_FILES < all_files.length then
        s₁ ++ lit "  (showing first " ++ natStr MAX_DATA_DIR_FILES ++ lit " of " ++
          natStr all_files.length ++ lit " files)" ++ [nl]
      else s₁
    let file_str := List.intercalate [nl] (all_files.take MAX_DATA_DIR_FILES)
    s₂ ++ file_str ++ [nl]

/-- The header line naming the listed directory. -/
def headerLine (data_dir : PyStr) : PyStr := lit "Data directory: " ++ data_dir

/-- The truncation-notice line stating the true total file count `n`. -/
def capLine (n : Nat) : PyStr :=
  lit "  (showing first " ++ natStr MAX_DATA_DIR_FILES ++ lit " of " ++ natStr n ++
    lit " files)"

/-! ## MemoryDict (`config.MemoryDict`), the tracked-access mapping -/

/-- `MemoryDict.RESERVED_KEYS` from `config.py`. -/
def RESERVED_KEYS : List String := ["_root_data"]

/-- Python `set.add` on the `_used_keys` set (kept as a duplicate-free list). -/
def addUsed (k : String) (used : List String) : List String :=
  if k ∈ used then used else used ++ [k]

/-- `MemoryDict`: a dict that records accessed keys in `_used_keys`. -/
structure MemoryDict (V : Type) where
  data : PyDict V
  used : List String

/-- `MemoryDict.__init__`: builds `dict(*args, **kwargs)` and raises
(`.error`) if it holds a reserved key, before any mapping state exists. -/
def MemoryDict.init {V : Type} (args : List (String × V)) :
    Except String (MemoryDict V) :=
  let initial_data := pyDictOf args
  if RESERVED_KEYS.any (fun r => initial_data.any (fun p => p.1 == r)) then
    .error "KeyError: reserved keys cannot be used"
  else
    .ok ⟨initial_data, []⟩

/-- `MemoryDict.__setitem__`: `_check_key` then item assignment. -/
def MemoryDict.setitem {V : Type} (d : MemoryDict V) (k : String) (v : V) :
    Except String (MemoryDict V) :=
  if RESERVED_KEYS.contains k then
    .error "KeyError: reserved key"
  else
    .ok ⟨dinsert d.data k v, d.used⟩

/-- `MemoryDict.__getitem__`: adds the key to `_used_keys` first, then looks
it up; a missing key raises `KeyError`, but the used-keys update remains. -/
def MemoryDict.getitem {V : Type} (d : MemoryDict V) (k : String) :
    Except String V × MemoryDict V :=
  let d' : MemoryDict V := ⟨d.data, addUsed k d.used⟩
  match dget d.data k with
  | some v => (.ok v, d')
  | none => (.error "KeyError", d')

/-- `MemoryDict.update`: builds `dict(*args, **kwargs)` and raises before
touching the mapping if it holds a reserved key. -/
def MemoryDict.update {V : Type} (d : MemoryDict V) (args : List (String × V)) :
    Except String (MemoryDict V) :=
  let new_data := pyDictOf args
  if RESERVED_KEYS.any (fun r => new_data.any (fun p => p.1 == r)) then
    .error "KeyError: reserved keys cannot be used"
  else
    .ok ⟨dupdate d.data new_data, d.used⟩

/-- Mutating operations observable on a `MemoryDict`. -/
inductive MDOp (V : Type) where
  | set (k : String) (v : V)
  | upd (args : List (String × V))
  | get (k : String)

/-- One operation; a raised `KeyError` leaves the object as it was (for
`__getitem__` the used-keys side effect still happens). -/
def MemoryDict.step {V : Type} (d : MemoryDict V) : MDOp V → MemoryDict V
  | .set k v =>
    match d.setitem k v with
    | .ok d' => d'
    | .error _ => d
  | .upd args =>
    match d.update args with
    | .ok d' => d'
    | .error _ => d
  | .get k => (d.getitem k).2

def MemoryDict.run {V : Type} (d : MemoryDict V) (ops : List (MDOp V)) :
    MemoryDict V :=
  ops.foldl MemoryDict.step d

/-- No reserved key is present in the mapping. -/
def MemoryDict.noReserved {V : Type} (d : MemoryDict V) : Prop :=
  ∀ k ∈ RESERVED_KEYS, dget d.data k = none

/-- Sorted insertion of a string into a sorted list. -/
def insertSorted (k : String) : List String → List String
  | [] => [k]
  | a :: t => if k ≤ a then k :: a :: t else a :: insertSorted k t

/-- `sorted(cfg.paths._used_keys)` from `repro.py` line 219 (modelled by
insertion sort; only the resulting key set matters to the claims). -/
def externalKeysOf (used : List String) : List String :=
  used.foldr insertSorted []

/-! ## EnvironmentInventory (`repro.gen_imports` and lines 125-145) -/

/-- An element of the Python set `combined`: normally a string, but the
expression `{sys.builtin_module_names}` on line 137 of `repro.py` subtracts
a set whose single element is the whole tuple of builtin names. -/
inductive PySetElem where
  | str (s : String)
  | tup (l : List String)
deriving DecidableEq

/-- A value of the calling script's global namespace, as far as
`gen_imports` inspects it: a module (with its `__name__`), or any other
value carrying an optional `__module__` attribute. -/
inductive NsVal where
  | module (name : String)
  | obj (moduleAttr : Option String)
deriving DecidableEq

/-- `name.split(".")[0]`: the prefix of `name` before the first dot. -/
def base_module (name : String) : String :=
  ⟨name.data.takeWhile (fun c => c ≠ '.')⟩

/-- `gen_imports` from `repro.py`: for module values yield the top-level
component of `__name__`; otherwise the top-level component of
`__module__`, skipping values without one (`AttributeError`). -/
def gen_imports (globals_ : List (String × NsVal)) : List String :=
  globals_.filterMap (fun p =>
    match p.2 with
    | .module n => some (base_module n)
    | .obj m => m.map base_module)

/-- An entry of the `editable` directory: its name, whether it is a
directory, and the module names `pkgutil.iter_modules` discovers inside. -/
structure EdEntry where
  name : String
  isDir : Bool
  modules : List String
deriving DecidableEq

/-- Lines 126-131 of `repro.py`: when `cfg.root / "editable"` exists
(`some entries` is its listing), collect the names of the modules found by
searching each subdirectory; otherwise the empty set. -/
def editable_packages (editableDir : Option (List EdEntry)) : Finset String :=
  match editableDir with
  | none => ∅
  | some entries =>
    (((entries.filter (fun e => e.isDir)).flatMap (fun e => e.modules))).toFinset

/-- The spec's reading of the editable contribution (§4.1 step 3): the set
of top-level subdirectory names found under the editable-installs
directory.  Stated only to be compared against `editable_packages`. -/
def editable_packages_specReading (editableDir : Option (List EdEntry)) :
    Finset String :=
  match editableDir with
  | none => ∅
  | some entries =>
    ((entries.filter (fun e => e.isDir)).map (fun e => e.name)).toFinset

/-- Lines 134-145 of `repro.py`: the combined interesting-package set.
`builtin_module_names` models `sys.builtin_module_names` (a tuple — it is
subtracted as a single set element, exactly as written in the source);
`stdlib_stems` models the stem set listed from the standard-library
directory. -/
def interesting_packages (packages : List String)
    (globals_ : List (String × NsVal))
    (editableDir : Option (List EdEntry))
    (builtin_module_names : List String)
    (stdlib_stems : Finset String) : Finset PySetElem :=
  let combined := (packages.map PySetElem.str).toFinset ∪
    ((gen_imports globals_).map PySetElem.str).toFinset ∪
    (editable_packages editableDir).image PySetElem.str
  let combined := combined \ {PySetElem.tup builtin_module_names}
  let combined := combined \ stdlib_stems.image PySetElem.str
  combined \ {PySetElem.str "hal", PySetElem.str "builtins"}

/-! ## GitStatusProbe and watermark keyword assembly (lines 147-179) -/

/-- A value in the watermark keyword dict. -/
inductive KwVal where
  | b (v : Bool)
  | s (v : String)
deriving DecidableEq

/-- The initial `mark_kwargs` dict from lines 147-155 of `repro.py`. -/
def base_mark_kwargs : PyDict KwVal :=
  [("author", KwVal.s "Jochem H. Smit"), ("current_time", KwVal.b true),
    ("current_date", KwVal.b true), ("timezone", KwVal.b true),
    ("updated", KwVal.b true), ("python", KwVal.b true),
    ("machine", KwVal.b true)]

/-- A diagnostic warning emitted by the snapshot routine. -/
inductive Warning where
  | counts (untracked modified added deleted renamed : Nat)
  | notRepo
deriving DecidableEq

/-- The per-category counts of porcelain status lines. -/
structure GitCounts where
  untracked : Nat
  modified : Nat
  added : Nat
  deleted : Nat
  renamed : Nat
deriving DecidableEq

/-- `fetch_git_status` from `repro.py`: `result.stdout.split("\n")`, where
`stdout` is the porcelain status output of the external command. -/
def fetch_git_status (stdout : PyStr) : List PyStr := stdout.splitOn nl

/-- The counts dict from lines 166-172 of `repro.py`. -/
def git_counts (lines : List PyStr) : GitCounts where
  untracked := (lines.filter (fun l => (lit "??").isPrefixOf l)).length
  modified := (lines.filter (fun l => (l.take 2).contains 'M')).length
  added := (lines.filter (fun l => (lit "A ").isPrefixOf l)).length
  deleted := (lines.filter (fun l => (l.take 2).contains 'D')).length
  renamed := (lines.filter (fun l => (lit "R ").isPrefixOf l)).length

/-- The warning of lines 173-175, carrying the interpolated counts. -/
def countsWarning (c : GitCounts) : Warning :=
  Warning.counts c.untracked c.modified c.added c.deleted c.renamed

/-- The outcome of lines 147-179 of `repro.py`. -/
structure MarkSetup where
  mark_kwargs : PyDict KwVal
  unclean : PyStr
  warnings : List Warning
deriving DecidableEq

/-- Lines 147-179 of `repro.py`: base toggles; inside a repository the git
toggles are switched on, the status is split and counted and the counts
warning emitted; outside, the not-a-repository warning is emitted; finally
the caller's `watermark_kwargs` are applied on top.  Referencing `counts`
with empty `lines` would be a Python `NameError` (the `.error` case, shown
unreachable because a split never yields an empty list). -/
def build_mark_kwargs (isRepo : Bool) (statusStdout : PyStr)
    (watermark_kwargs : PyDict KwVal) : Except String MarkSetup :=
  if isRepo then
    let mark_kwargs :=
      dupdate base_mark_kwargs [("githash", KwVal.b true), ("gitbranch", KwVal.b true)]
    let lines := fetch_git_status statusStdout
    if lines = [] then Except.error "NameError: name counts is not defined"
    else
      Except.ok
        { mark_kwargs := dupdate mark_kwargs watermark_kwargs
          unclean := List.intercalate [nl] lines
          warnings := [countsWarning (git_counts lines)] }
  else
    Except.ok
      { mark_kwargs := dupdate base_mark_kwargs watermark_kwargs
        unclean := []
        warnings := [Warning.notRepo] }

/-! ## DependencyFreeze (lines 207-217 and 235-237) -/

/-- The captured outcome of `subprocess.run(["uv", "pip", "freeze", ...])`
(invoked without `check=True`, so no exit status raises). -/
structure FreezeResult where
  stdout : PyStr
  stderr : PyStr
  returncode : Int
deriving DecidableEq

/-- Python `str.splitlines` on newline-separated text: like `split("\n")`
but without the trailing empty piece of newline-terminated text. -/
def pySplitlines (s : PyStr) : List PyStr :=
  let l := s.splitOn nl
  if l.getLast? = some [] then l.dropLast else l

/-- Line 216 of `repro.py`: drop the editable-install lines. -/
def editableFiltered (stdout : PyStr) : List PyStr :=
  (pySplitlines stdout).filter (fun line => !((lit "-e").isPrefixOf line))

/-- Line 217: `"\n".join(lines)`. -/
def freeze_no_editable (stdout : PyStr) : PyStr :=
  List.intercalate [nl] (editableFiltered stdout)

/-- Lines 235-237: the archive entries contributed by the freeze step —
always `uv_pip_freeze.txt` with the filtered stdout, plus
`uv_pip_freeze_error.txt` holding stderr verbatim exactly when stderr is
non-empty. -/
def freeze_entries (r : FreezeResult) : List (String × PyStr) :=
  [("uv_pip_freeze.txt", freeze_no_editable r.stdout)] ++
    (if r.stderr ≠ [] then [("uv_pip_freeze_error.txt", r.stderr)] else [])

/-- Modelled from the spec: the contract of the external freeze provider
(§4.3), which is not part of this repository — a failing command yields
empty stdout and non-empty stderr. -/
def freezeProviderContract (r : FreezeResult) : Prop :=
  r.returncode ≠ 0 → r.stdout = [] ∧ r.stderr ≠ []

/-! ## Resolved external data paths (lines 219-224) -/

/-- The dict comprehension of line 223: one entry per used key, looked up
in `cfg.paths`; a used key missing from the mapping raises `KeyError`. -/
def trackedPathsDict {V : Type} (paths : PyDict V) :
    List String → Except String (PyDict V)
  | [] => .ok []
  | k :: t =>
    match dget paths k with
    | none => .error "KeyError"
    | some v => (trackedPathsDict paths t).map (fun d => (k, v) :: d)

/-- Lines 219-224 of `repro.py`: the resolved external data paths —
caller-supplied mapping, overridden by the two built-in entries, overridden
by the tracked-config entries for the used keys. -/
def external_paths_calc {V : Type} (external_data_paths : PyDict V)
    (root_data output : V) (paths : MemoryDict V) : Except String (PyDict V) :=
  let external_keys := externalKeysOf paths.used
  (trackedPathsDict paths.data external_keys).map (fun tracked =>
    dupdate
      (dupdate external_data_paths [("_root_data", root_data), ("_output", output)])
      tracked)

/-! ## SnapshotArchiver: the write trace on `output/_rpr.zip` (lines 227-259) -/

/-- An operation on the archive file: opening `zipfile.ZipFile(path, "w")`
truncates the file; `write`/`writestr` adds an entry. -/
inductive ZipEvent where
  | truncate
  | write (name : String) (content : PyStr)
deriving DecidableEq

/-- `zipdir` from `repro.py`: the entries written for a directory tree,
skipping files with a `__pycache__` path part, rooted at `root`. -/
def zipdir_entries (files : List (String × PyStr)) (root : String) :
    List (String × PyStr) :=
  (files.filter
      (fun f => !((f.1.data.splitOn '/').contains (lit "__pycache__")))).map
    (fun f => (root ++ "/" ++ f.1, f.2))

/-- The entries lines 230-247 of `repro.py` write into the outer archive,
in write order: every `scripts/<relative path>` source file, the watermark,
the freeze entries, the lockfile when present, and the toolbox tree. -/
def primaryEntries (script_files : List (String × PyStr)) (mark : PyStr)
    (freeze : FreezeResult) (lockfile : Option PyStr)
    (toolbox_files : List (String × PyStr)) : List (String × PyStr) :=
  script_files.map (fun f => ("scripts/" ++ f.1, f.2)) ++
    [("watermark.txt", mark)] ++
    freeze_entries freeze ++
    (match lockfile with
      | some c => [("uv.lock", c)]
      | none => []) ++
    zipdir_entries toolbox_files "ava"

/-- The sequence of operations `_reproduce` performs on `output/_rpr.zip`
(lines 227-259).  Parameters model the filesystem and the gathered facts:
`script_files` are the `**/*.py` files under the script directory
(script-relative path, content), `mark` the watermark text, `freeze` the
captured freeze outcome, `lockfile` the `uv.lock` content when present,
`toolbox_files` the files under `cfg.root / "ava"`, and `exc` the
`traceback.format_exception` lines of the recorded uncaught exception, if
one exists.  The exception block reopens the same path in write mode while
the outer archive is open, truncating it and writing only `error.txt`. -/
def rprZipEvents (script_files : List (String × PyStr)) (mark : PyStr)
    (freeze : FreezeResult) (lockfile : Option PyStr)
    (toolbox_files : List (String × PyStr)) (exc : Option (List PyStr)) :
    List ZipEvent :=
  [ZipEvent.truncate] ++
    (primaryEntries script_files mark freeze lockfile toolbox_files).map
      (fun e => ZipEvent.write e.1 e.2) ++
    (match exc with
      | some tb =>
        [ZipEvent.truncate,
          ZipEvent.write "error.txt" (List.intercalate [nl] tb)]
      | none => [])

/-- The effect of one archive operation on the entry list of the file. -/
def zipStep (acc : List (String × PyStr)) (e : ZipEvent) :
    List (String × PyStr) :=
  match e with
  | .truncate => []
  | .write n c => acc ++ [(n, c)]

/-- The entries present in the archive file after a sequence of
operations: a truncation discards everything written so far. -/
def finalEntries (evs : List ZipEvent) : List (String × PyStr) :=
  evs.foldl zipStep []

/-! ## Supporting lemmas -/

theorem dget_dinsert {V : Type} (d : PyDict V) (k : String) (v : V) (k' : String) :
    dget (dinsert d k v) k' = if k' = k then some v else dget d k' := by
  by_cases h : k' = k
  · simp [dget, dinsert, List.find?, h]
  · simp only [dget, dinsert, if_neg h]
    have hne : (k == k') = false := by
      simp [beq_iff_eq]
      exact fun he => h he.symm
    simp only [List.find?, hne]
    congr 1
    induction d with
    | nil => rfl
    | cons p t ih =>
      by_cases hp : p.1 = k
      · simp only [List.filter, hp]
        simp only [beq_self_eq_true, Bool.not_true]
        have : (p.1 == k') = false := by
          simp [hp, beq_iff_eq]
          exact fun he => h he.symm
        simp [List.find?, this, hp, ih, hne]
      · have : (p.1 == k) = false := by simp [beq_iff_eq, hp]
        simp only [List.filter, this, Bool.not_false]
        by_cases hk' : p.1 = k'
        · simp [List.find?, hk']
        · have h2 : (p.1 == k') = false := by simp [beq_iff_eq, hk']
          simp [List.find?, h2, ih]

/-- A key absent from the key list looks up to `none`. -/
theorem dget_eq_none {V : Type} (d : PyDict V) (k : String)
    (h : k ∉ d.map Prod.fst) : dget d k = none := by
  induction d with
  | nil => rfl
  | cons p t ih =>
    simp only [List.map, List.mem_cons, not_or] at h
    have : (p.1 == k) = false := by simp [beq_iff_eq]; exact fun he => h.1 he.symm
    simp only [dget, List.find?, this]
    exact ih h.2

/-- Lookup after a bulk update: the right dict wins where defined, provided
its keys are duplicate-free (as Python dict keys always are). -/
theorem dget_dupdate {V : Type} (d₁ d₂ : PyDict V) (k : String)
    (hnd : (d₂.map Prod.fst).Nodup) :
    dget (dupdate d₁ d₂) k = (dget d₂ k).orElse (fun _ => dget d₁ k) := by
  induction d₂ generalizing d₁ with
  | nil => rfl
  | cons p t ih =>
    simp only [List.map, List.nodup_cons] at hnd
    have hstep : dupdate d₁ (p :: t) = dupdate (dinsert d₁ p.1 p.2) t := rfl
    rw [hstep, ih _ hnd.2]
    by_cases h : k = p.1
    · have ht : dget t k = none := dget_eq_none t k (by rw [h]; exact hnd.1)
      have hp : dget (p :: t) k = some p.2 := by
        simp [dget, List.find?, beq_iff_eq, h]
      rw [ht, hp, dget_dinsert, if_pos h]
      rfl
    · have hp : dget (p :: t) k = dget t k := by
        have : (p.1 == k) = false := by simp [beq_iff_eq]; exact fun he => h he.symm
        simp [dget, List.find?, this]
      rw [hp, dget_dinsert, if_neg h]

/-- Keys of a dict built by overriding insertions are duplicate-free. -/
theorem dinsert_keys_nodup {V : Type} (d : PyDict V) (k : String) (v : V)
    (h : (d.map Prod.fst).Nodup) : ((dinsert d k v).map Prod.fst).Nodup := by
  simp only [dinsert, List.map, List.nodup_cons]
  constructor
  · intro hmem
    simp only [List.mem_map] at hmem
    obtain ⟨p, hp, hpk⟩ := hmem
    have := List.of_mem_filter hp
    simp [beq_iff_eq, hpk] at this
  · exact List.Nodup.sublist (List.Sublist.map Prod.fst (List.filter_sublist d)) h

theorem pyDictOf_keys_nodup {V : Type} (l : List (String × V)) :
    ((pyDictOf l).map Prod.fst).Nodup := by
  suffices h : ∀ d : PyDict V, (d.map Prod.fst).Nodup →
      ((l.foldl (fun d p => dinsert d p.1 p.2) d).map Prod.fst).Nodup from
    h [] List.nodup_nil
  induction l with
  | nil => intro d hd; exact hd
  | cons p t ih =>
    intro d hd
    exact ih _ (dinsert_keys_nodup d p.1 p.2 hd)

/-- Key membership in `pyDictOf l` is key membership in `l`. -/
theorem mem_keys_pyDictOf {V : Type} (l : List (String × V)) (k : String) :
    k ∈ (pyDictOf l).map Prod.fst ↔ k ∈ l.map Prod.fst := by
  suffices h : ∀ d : PyDict V,
      (k ∈ (l.foldl (fun d p => dinsert d p.1 p.2) d).map Prod.fst ↔
        k ∈ d.map Prod.fst ∨ k ∈ l.map Prod.fst) by
    have := h []
    simpa using this
  induction l with
  | nil => intro d; simp [pyDictOf]
  | cons p t ih =>
    intro d
    have hstep : (p :: t).foldl (fun d q => dinsert d q.1 q.2) d =
        t.foldl (fun d q => dinsert d q.1 q.2) (dinsert d p.1 p.2) := rfl
    rw [hstep, ih]
    constructor
    · rintro (hmem | hmem)
      · simp only [dinsert, List.map, List.mem_cons] at hmem
        rcases hmem with h | h
        · right; simp [h]
        · left
          simp only [List.mem_map] at h ⊢
          obtain ⟨q, hq, hqk⟩ := h
          exact ⟨q, List.mem_of_mem_filter hq, hqk⟩
      · right; simp [hmem]
    · rintro (hmem | hmem)
      · by_cases hk : k = p.1
        · left; simp [dinsert, hk]
        · left
          simp only [dinsert, List.map, List.mem_cons]
          right
          simp only [List.mem_map] at hmem ⊢
          obtain ⟨q, hq, hqk⟩ := hmem
          refine ⟨q, List.mem_filter.2 ⟨hq, ?_⟩, hqk⟩
          simp [beq_iff_eq, hqk, hk]
      · simp only [List.map, List.mem_cons] at hmem
        rcases hmem with h | h
        · left; simp [dinsert, h]
        · right; exact h

theorem digitChar_ne_nl (d : Nat) (h : d < 10) : Char.ofNat (48 + d) ≠ nl := by
  interval_cases d <;> decide

theorem natStr_no_nl (n : Nat) : nl ∉ natStr n := by
  induction n using Nat.strong_induction_on with
  | _ n ih =>
    rw [natStr]
    split
    · next h =>
      intro hmem
      simp only [List.mem_singleton] at hmem
      exact digitChar_ne_nl n h hmem.symm
    · next h =>
      intro hmem
      rcases List.mem_append.1 hmem with h1 | h2
      · exact ih (n / 10) (Nat.div_lt_self (by omega) (by omega)) h1
      · simp only [List.mem_singleton] at h2
        exact digitChar_ne_nl (n % 10) (Nat.mod_lt n (by omega)) h2.symm

theorem intercalate_cons₂ {α : Type} (x : α) (a : List α) (l : List (List α))
    (h : l ≠ []) :
    List.intercalate [x] (a :: l) = a ++ x :: List.intercalate [x] l := by
  cases l with
  | nil => exact absurd rfl h
  | cons b t => simp [List.intercalate, List.intersperse_cons_cons]

theorem intercalate_concat_nil {α : Type} (x : α) (l : List (List α)) (h : l ≠ []) :
    List.intercalate [x] (l ++ [[]]) = List.intercalate [x] l ++ [x] := by
  induction l with
  | nil => exact absurd rfl h
  | cons a t ih =>
    cases t with
    | nil => simp [List.intercalate, List.intersperse_cons_cons]
    | cons b t' =>
      rw [List.cons_append, intercalate_cons₂ x a (b :: t' ++ [[]]) (by simp),
        intercalate_cons₂ x a (b :: t') (by simp), ih (by simp)]
      simp

theorem take_max_ne_nil (files : List PyStr) (h : files ≠ []) :
    files.take MAX_DATA_DIR_FILES ≠ [] := by
  intro hc
  rcases List.take_eq_nil_iff.1 hc with h0 | h0
  · simp [MAX_DATA_DIR_FILES] at h0
  · exact h h0

/-- `data_dir_to_str` output, rewritten as newline-joined lines: the header,
the truncation notice when over the cap, the (capped) file paths, and a
final empty piece from the terminating newline. -/
theorem data_dir_to_str_eq_intercalate (d : PyStr) (files : List PyStr)
    (h : files ≠ []) :
    data_dir_to_str d files =
      List.intercalate [nl] (headerLine d ::
        ((if MAX_DATA_DIR_FILES < files.length then [capLine files.length] else []) ++
          files.take MAX_DATA_DIR_FILES ++ [[]])) := by
  have htake := take_max_ne_nil files h
  by_cases hcap : MAX_DATA_DIR_FILES < files.length
  · rw [if_pos hcap]
    simp only [List.singleton_append, List.cons_append, List.nil_append,
      List.append_assoc]
    rw [intercalate_cons₂ nl (headerLine d)
        (capLine files.length :: (files.take MAX_DATA_DIR_FILES ++ [[]])) (by simp),
      intercalate_cons₂ nl (capLine files.length)
        (files.take MAX_DATA_DIR_FILES ++ [[]]) (by simp [htake]),
      intercalate_concat_nil nl _ htake]
    simp only [data_dir_to_str, if_neg h, if_pos hcap, headerLine, capLine]
    simp [List.append_assoc]
  · rw [if_neg hcap]
    simp only [List.nil_append, List.append_assoc]
    rw [intercalate_cons₂ nl (headerLine d)
        (files.take MAX_DATA_DIR_FILES ++ [[]]) (by simp [htake]),
      intercalate_concat_nil nl _ htake]
    simp only [data_dir_to_str, if_neg h, if_neg hcap, headerLine]
    simp [List.append_assoc]

theorem mem_insertSorted (k k' : String) (l : List String) :
    k ∈ insertSorted k' l ↔ k = k' ∨ k ∈ l := by
  induction l with
  | nil => simp [insertSorted]
  | cons a t ih =>
    unfold insertSorted
    by_cases h : k' ≤ a
    · simp [h]
    · simp [h, ih]
      tauto

theorem mem_externalKeysOf (k : String) (used : List String) :
    k ∈ externalKeysOf used ↔ k ∈ used := by
  unfold externalKeysOf
  induction used with
  | nil => simp
  | cons a t ih => simp [List.foldr_cons, mem_insertSorted, ih]

theorem insertSorted_nodup (k : String) (l : List String) (hk : k ∉ l)
    (h : l.Nodup) : (insertSorted k l).Nodup := by
  induction l with
  | nil => simp [insertSorted]
  | cons a t ih =>
    unfold insertSorted
    by_cases hle : k ≤ a
    · simp only [hle, if_true, List.nodup_cons]
      refine ⟨hk, ?_⟩
      simpa using h
    · simp only [hle, if_false, List.nodup_cons]
      rw [List.nodup_cons] at h
      simp only [List.mem_cons, not_or] at hk
      refine ⟨?_, ih hk.2 h.2⟩
      rw [mem_insertSorted]
      rintro (he | he)
      · exact hk.1 he.symm
      · exact h.1 he

theorem externalKeysOf_nodup (used : List String) (h : used.Nodup) :
    (externalKeysOf used).Nodup := by
  unfold externalKeysOf
  induction used with
  | nil => simp
  | cons a t ih =>
    rw [List.nodup_cons] at h
    refine insertSorted_nodup a _ ?_ (ih h.2)
    rw [show (t.foldr insertSorted [] = externalKeysOf t) from rfl,
      mem_externalKeysOf]
    exact h.1

theorem step_noReserved {V : Type} (d : MemoryDict V) (op : MDOp V)
    (h : d.noReserved) : (d.step op).noReserved := by
  cases op with
  | set k v =>
    by_cases hres : RESERVED_KEYS.contains k
    · simp only [MemoryDict.step, MemoryDict.setitem, if_pos hres]
      exact h
    · simp only [MemoryDict.step, MemoryDict.setitem, if_neg hres]
      intro r hr
      rw [dget_dinsert]
      have hrk : r ≠ k := by
        simp only [RESERVED_KEYS, List.mem_singleton] at hr
        subst hr
        intro he
        apply hres
        rw [← he]
        decide
      rw [if_neg hrk]
      exact h r hr
  | upd args =>
    by_cases hres : RESERVED_KEYS.any (fun r => (pyDictOf args).any (fun p => p.1 == r))
    · simp only [MemoryDict.step, MemoryDict.update, if_pos hres]
      exact h
    · simp only [MemoryDict.step, MemoryDict.update, if_neg hres]
      intro r hr
      rw [dget_dupdate _ _ _ (pyDictOf_keys_nodup args)]
      have hnew : dget (pyDictOf args) r = none := by
        apply dget_eq_none
        intro hmem
        apply hres
        rw [List.any_eq_true]
        refine ⟨r, hr, ?_⟩
        rw [List.any_eq_true]
        simp only [List.mem_map] at hmem
        obtain ⟨p, hp, hpk⟩ := hmem
        exact ⟨p, hp, by simp [hpk]⟩
      rw [hnew]
      exact h r hr
  | get k =>
    intro r hr
    simp only [MemoryDict.step, MemoryDict.getitem]
    rcases hv : dget d.data k with _ | v
    · exact h r hr
    · exact h r hr

theorem foldl_zipStep_writes (entries : List (String × PyStr))
    (acc : List (String × PyStr)) :
    (entries.map (fun e => ZipEvent.write e.1 e.2)).foldl zipStep acc =
      acc ++ entries := by
  induction entries generalizing acc with
  | nil => simp
  | cons e t ih =>
    simp only [List.map_cons, List.foldl_cons, zipStep, ih]
    simp

theorem dget_cons {V : Type} (k : String) (v : V) (d : PyDict V) (k' : String) :
    dget ((k, v) :: d) k' = if k' = k then some v else dget d k' := by
  by_cases h : k' = k
  · subst h
    simp [dget, List.find?]
  · have hf : (k == k') = false := by
      simp only [beq_eq_false_iff_ne, ne_eq]
      exact fun he => h he.symm
    simp [dget, List.find?, hf, h]

/-- Characterization of a successful tracked-paths comprehension: the keys
are exactly the iterated keys, every iterated key was present in the
mapping, and each entry holds the mapping's value. -/
theorem trackedPathsDict_spec {V : Type} (paths : PyDict V) (keys : List String)
    (tracked : PyDict V) (h : trackedPathsDict paths keys = .ok tracked) :
    tracked.map Prod.fst = keys ∧
    ∀ k ∈ keys, dget tracked k = dget paths k ∧ ∃ v, dget paths k = some v := by
  induction keys generalizing tracked with
  | nil =>
    simp only [trackedPathsDict, Except.ok.injEq] at h
    subst h
    exact ⟨rfl, by simp⟩
  | cons k t ih =>
    simp only [trackedPathsDict] at h
    rcases hv : dget paths k with _ | v
    · rw [hv] at h
      exact absurd h (by simp)
    · rw [hv] at h
      rcases htr : trackedPathsDict paths t with e | d
      · rw [htr] at h
        exact absurd h (by simp [Except.map])
      · rw [htr] at h
        simp only [Except.map, Except.ok.injEq] at h
        subst h
        obtain ⟨hkeys, hvals⟩ := ih d htr
        refine ⟨by simp [hkeys], ?_⟩
        intro k' hk'
        rw [dget_cons]
        by_cases he : k' = k
        · subst he
          rw [if_pos rfl, hv]
          exact ⟨rfl, v, rfl⟩
        · rw [if_neg he]
          rcases List.mem_cons.1 hk' with h2 | h2
          · exact absurd h2 he
          · exact hvals k' h2

theorem mem_addUsed (k : String) (used : List String) : k ∈ addUsed k used := by
  unfold addUsed
  split
  · assumption
  · exact List.mem_append.2 (Or.inr (List.mem_singleton.2 rfl))

/-- `str.split` never returns an empty list, so the `counts` NameError
branch is unreachable. -/
theorem fetch_git_status_ne_nil (stdout : PyStr) : fetch_git_status stdout ≠ [] :=
  List.splitOnP_ne_nil _ _

theorem nl_not_mem_headerLine (d : PyStr) (hd : nl ∉ d) : nl ∉ headerLine d := by
  intro hmem
  rcases List.mem_append.1 hmem with h | h
  · revert h; decide
  · exact hd h

theorem nl_not_mem_capLine (n : Nat) : nl ∉ capLine n := by
  intro hmem
  simp only [capLine, List.append_assoc, List.mem_append] at hmem
  rcases hmem with h | h | h | h | h
  · revert h; decide
  · exact natStr_no_nl MAX_DATA_DIR_FILES h
  · revert h; decide
  · exact natStr_no_nl n h
  · revert h; decide

end Hal

/-- C5: `data_dir_to_str` on an empty file list (nonexistent or file-less
directory) yields empty text; on N ≤ 50000 files, the text is exactly one
header line naming the directory followed by the N relative-path lines; on
N > 50000 files, a second header line states the true total count N and
exactly 50000 path lines follow.  Lines are read off by splitting on the
newline character; the trailing `[]` piece reflects the terminating newline. -/
theorem C5_data_dir_lister_line_structure (d : Hal.PyStr) (files : List Hal.PyStr)
    (hd : Hal.nl ∉ d) (hf : ∀ f ∈ files, Hal.nl ∉ f) :
    (Hal.data_dir_to_str d files).splitOn Hal.nl =
      if files = [] then [[]]
      else if files.length ≤ Hal.MAX_DATA_DIR_FILES then
        Hal.headerLine d :: (files ++ [[]])
      else
        Hal.headerLine d :: Hal.capLine files.length ::
          (files.take Hal.MAX_DATA_DIR_FILES ++ [[]]) := by
  by_cases hemp : files = []
  · subst hemp
    simp [Hal.data_dir_to_str]
  · have hx : ∀ l ∈ Hal.headerLine d ::
        ((if Hal.MAX_DATA_DIR_FILES < files.length then [Hal.capLine files.length]
          else []) ++ files.take Hal.MAX_DATA_DIR_FILES ++ [[]]), Hal.nl ∉ l := by
      intro l hl
      rcases List.mem_cons.1 hl with h | h
      · rw [h]; exact Hal.nl_not_mem_headerLine d hd
      · rcases List.mem_append.1 h with h2 | h2
        · rcases List.mem_append.1 h2 with h3 | h3
          · by_cases hcap : Hal.MAX_DATA_DIR_FILES < files.length
            · rw [if_pos hcap] at h3
              simp only [List.mem_singleton] at h3
              rw [h3]
              exact Hal.nl_not_mem_capLine files.length
            · rw [if_neg hcap] at h3
              simp at h3
          · exact hf l (List.take_subset _ _ h3)
        · simp only [List.mem_singleton] at h2
          rw [h2]
          simp
    have hsplit := List.splitOn_intercalate _ Hal.nl hx (by simp)
    rw [Hal.data_dir_to_str_eq_intercalate d files hemp, hsplit, if_neg hemp]
    by_cases hle : files.length ≤ Hal.MAX_DATA_DIR_FILES
    · rw [if_pos hle, if_neg (not_lt.2 hle), List.nil_append,
        List.take_of_length_le hle]
    · rw [if_neg hle, if_pos (not_le.1 hle), List.singleton_append,
        List.cons_append]

/-- Witness for C5 at a one-file directory: the text for directory `d` with
the single file `a.txt` splits into the header line and that one path line. -/
theorem C5_witness :
    (Hal.data_dir_to_str (Hal.lit "d") [Hal.lit "a.txt"]).splitOn Hal.nl =
      Hal.headerLine (Hal.lit "d") :: ([Hal.lit "a.txt"] ++ [[]]) := by
  have h := C5_data_dir_lister_line_structure (Hal.lit "d") [Hal.lit "a.txt"]
    (by decide) (by decide)
  rw [h]
  decide

/-- C6: the tracked-access mapping never holds a reserved key: construction
with a reserved initial entry raises before any mapping state is created,
item assignment and bulk update raise on a reserved key leaving the object
unchanged, and the no-reserved-key invariant is preserved by every sequence
of operations. -/
theorem C6_reserved_key_invariant {V : Type} :
    (∀ (args : List (String × V)) (k : String) (v : V),
        k ∈ Hal.RESERVED_KEYS → (k, v) ∈ args →
        ∃ e, Hal.MemoryDict.init args = Except.error e) ∧
    (∀ (d : Hal.MemoryDict V) (k : String) (v : V), k ∈ Hal.RESERVED_KEYS →
        (∃ e, d.setitem k v = Except.error e) ∧ d.step (.set k v) = d) ∧
    (∀ (d : Hal.MemoryDict V) (args : List (String × V)) (k : String) (v : V),
        k ∈ Hal.RESERVED_KEYS → (k, v) ∈ args →
        (∃ e, d.update args = Except.error e) ∧ d.step (.upd args) = d) ∧
    (∀ (d : Hal.MemoryDict V) (ops : List (Hal.MDOp V)),
        d.noReserved → (d.run ops).noReserved) := by
  have hcond : ∀ (args : List (String × V)) (k : String) (v : V),
      k ∈ Hal.RESERVED_KEYS → (k, v) ∈ args →
      Hal.RESERVED_KEYS.any
        (fun r => (Hal.pyDictOf args).any (fun p => p.1 == r)) = true := by
    intro args k v hk hmem
    rw [List.any_eq_true]
    refine ⟨k, hk, ?_⟩
    rw [List.any_eq_true]
    have hkeys : k ∈ (Hal.pyDictOf args).map Prod.fst :=
      (Hal.mem_keys_pyDictOf args k).2 (List.mem_map.2 ⟨(k, v), hmem, rfl⟩)
    obtain ⟨p, hp, hpk⟩ := List.mem_map.1 hkeys
    exact ⟨p, hp, by simp [hpk]⟩
  refine ⟨?_, ?_, ?_, ?_⟩
  · intro args k v hk hmem
    exact ⟨"KeyError: reserved keys cannot be used",
      by simp [Hal.MemoryDict.init, hcond args k v hk hmem]⟩
  · intro d k v hk
    exact ⟨⟨"KeyError: reserved key", by simp [Hal.MemoryDict.setitem, hk]⟩,
      by simp [Hal.MemoryDict.step, Hal.MemoryDict.setitem, hk]⟩
  · intro d args k v hk hmem
    exact ⟨⟨"KeyError: reserved keys cannot be used",
        by simp [Hal.MemoryDict.update, hcond args k v hk hmem]⟩,
      by simp [Hal.MemoryDict.step, Hal.MemoryDict.update, hcond args k v hk hmem]⟩
  · intro d ops h
    induction ops generalizing d with
    | nil => exact h
    | cons op t ih =>
      have hrun : Hal.MemoryDict.run d (op :: t) =
          Hal.MemoryDict.run (d.step op) t := rfl
      rw [hrun]
      exact ih _ (Hal.step_noReserved d op h)

/-- Witness for C6: constructing with the reserved key raises, and a run
mixing a reserved assignment, a reserved bulk update and a reserved lookup
leaves the mapping free of reserved keys. -/
theorem C6_witness :
    (∃ e, Hal.MemoryDict.init ([("_root_data", 0)] : List (String × Nat)) =
      Except.error e) ∧
    (Hal.MemoryDict.run (⟨[("data", 7)], []⟩ : Hal.MemoryDict Nat)
        [Hal.MDOp.set "_root_data" 0, Hal.MDOp.upd [("x", 1), ("_root_data", 2)],
          Hal.MDOp.get "_root_data"]).noReserved := by
  refine ⟨C6_reserved_key_invariant.1 [("_root_data", 0)] "_root_data" 0
      (by decide) (List.mem_singleton.2 rfl),
    C6_reserved_key_invariant.2.2.2 _ _ ?_⟩
  intro k hk
  simp only [Hal.RESERVED_KEYS, List.mem_singleton] at hk
  subst hk
  decide

/-- C9: `__getitem__` on a missing key raises `KeyError`, but the key is
added to `_used_keys` first (the used-keys state is not left unchanged on
error), and so it appears in the archiver's sorted external-keys list. -/
theorem C9_failed_lookup_marks_used {V : Type} (d : Hal.MemoryDict V)
    (k : String) (h : Hal.dget d.data k = none) :
    (d.getitem k).1 = Except.error "KeyError" ∧
    (d.getitem k).2.used = Hal.addUsed k d.used ∧
    k ∈ Hal.externalKeysOf (d.getitem k).2.used := by
  refine ⟨by simp [Hal.MemoryDict.getitem, h], by simp [Hal.MemoryDict.getitem, h], ?_⟩
  have h2 : (d.getitem k).2.used = Hal.addUsed k d.used := by
    simp [Hal.MemoryDict.getitem, h]
  rw [Hal.mem_externalKeysOf, h2]
  exact Hal.mem_addUsed k d.used

/-- Witness for C9 at the empty mapping and key `plots`. -/
theorem C9_witness :
    (Hal.MemoryDict.getitem (⟨[], []⟩ : Hal.MemoryDict Nat) "plots").1 =
        Except.error "KeyError" ∧
    (Hal.MemoryDict.getitem (⟨[], []⟩ : Hal.MemoryDict Nat) "plots").2.used =
        Hal.addUsed "plots" [] ∧
    "plots" ∈ Hal.externalKeysOf
        (Hal.MemoryDict.getitem (⟨[], []⟩ : Hal.MemoryDict Nat) "plots").2.used :=
  C9_failed_lookup_marks_used ⟨[], []⟩ "plots" rfl

/-- C2 (code evaluated at the failing input): for a namespace holding only
the builtin module `sys`, with no caller packages and no editable
directory, the interesting-package set is `{"sys"}`, not the empty set:
line 137 subtracts the one-element set containing the whole
`sys.builtin_module_names` tuple, which removes no string, and `sys` has no
stem in the standard-library directory listing. -/
theorem C2_builtin_name_survives :
    Hal.PySetElem.str "sys" ∈
      Hal.interesting_packages [] [("sys", Hal.NsVal.module "sys")] none
        ["sys", "builtins", "_thread"]
        ({"os", "pathlib", "json"} : Finset String) ∧
    Hal.interesting_packages [] [("sys", Hal.NsVal.module "sys")] none
        ["sys", "builtins", "_thread"]
        ({"os", "pathlib", "json"} : Finset String) ≠ ∅ := by
  have h : Hal.PySetElem.str "sys" ∈
      Hal.interesting_packages [] [("sys", Hal.NsVal.module "sys")] none
        ["sys", "builtins", "_thread"]
        ({"os", "pathlib", "json"} : Finset String) := by decide
  exact ⟨h, Finset.ne_empty_of_mem h⟩

/-- C8 counterexample: an editable directory with the single subdirectory
`mypkg-repo` containing the module `mypkg` contributes `{mypkg}`, not the
subdirectory-name set `{mypkg-repo}` the claim asserts. -/
theorem C8_counterexample :
    Hal.editable_packages (some [⟨"mypkg-repo", true, ["mypkg"]⟩]) ≠
      Hal.editable_packages_specReading
        (some [⟨"mypkg-repo", true, ["mypkg"]⟩]) := by
  decide

/-- C8 amended: the editable contribution is empty when the directory does
not exist, and otherwise is the union, over the top-level subdirectories of
the editable directory, of the module names discovered inside each — not
the subdirectory names themselves. -/
theorem C8_editable_contribution :
    Hal.editable_packages none = (∅ : Finset String) ∧
    ∀ entries : List Hal.EdEntry,
      Hal.editable_packages (some entries) =
        entries.foldr
          (fun e acc => if e.isDir then e.modules.toFinset ∪ acc else acc) ∅ := by
  refine ⟨rfl, ?_⟩
  intro entries
  induction entries with
  | nil => rfl
  | cons e t ih =>
    show (((e :: t).filter (fun e => e.isDir)).flatMap (fun e => e.modules)).toFinset = _
    rw [List.filter_cons]
    by_cases hd : e.isDir
    · simp only [hd, if_true, List.flatMap_cons, List.toFinset_append, List.foldr_cons]
      rw [← ih]
      rfl
    · simp only [hd, Bool.false_eq_true, if_false, List.foldr_cons]
      rw [← ih]
      rfl

/-- C3 counterexample: with the git probe returning false and the caller
requesting `githash=True` in the watermark overrides, the keyword set
passed to the watermark builder still holds `githash=True` — the caller
overrides are applied after the git section, so the toggle is not
force-disabled as the claim asserts (the warning is emitted, though). -/
theorem C3_counterexample :
    (Hal.build_mark_kwargs false [] [("githash", Hal.KwVal.b true)]).toOption.map
        (fun r => (Hal.dget r.mark_kwargs "githash", r.warnings)) =
      some (some (Hal.KwVal.b true), [Hal.Warning.notRepo]) := by
  decide

/-- C3 amended: when the git probe returns false, the git toggles are
simply not enabled by default — the final keyword set holds `githash` and
`gitbranch` exactly as the caller's overrides do (absent when not supplied)
— and the not-a-repository warning is emitted. -/
theorem C3_no_repo_git_toggles (stdout : Hal.PyStr) (wk : Hal.PyDict Hal.KwVal)
    (hnd : (wk.map Prod.fst).Nodup) :
    ∃ r, Hal.build_mark_kwargs false stdout wk = Except.ok r ∧
      Hal.dget r.mark_kwargs "githash" = Hal.dget wk "githash" ∧
      Hal.dget r.mark_kwargs "gitbranch" = Hal.dget wk "gitbranch" ∧
      r.warnings = [Hal.Warning.notRepo] := by
  refine ⟨_, rfl, ?_, ?_, rfl⟩
  · rw [Hal.dget_dupdate _ _ _ hnd]
    rcases h : Hal.dget wk "githash" with _ | v
    · simp [Option.orElse]
      decide
    · simp [Option.orElse]
  · rw [Hal.dget_dupdate _ _ _ hnd]
    rcases h : Hal.dget wk "gitbranch" with _ | v
    · simp [Option.orElse]
      decide
    · simp [Option.orElse]

/-- Witness for C3 amended, with no caller overrides: both git toggles are
absent from the final keyword set and the warning is emitted. -/
theorem C3_witness :
    ∃ r, Hal.build_mark_kwargs false [] [] = Except.ok r ∧
      Hal.dget r.mark_kwargs "githash" = Hal.dget ([] : Hal.PyDict Hal.KwVal) "githash" ∧
      Hal.dget r.mark_kwargs "gitbranch" = Hal.dget ([] : Hal.PyDict Hal.KwVal) "gitbranch" ∧
      r.warnings = [Hal.Warning.notRepo] :=
  C3_no_repo_git_toggles [] [] List.nodup_nil

/-- C4 counterexample: in a clean repository the porcelain stdout is empty,
so there is no status line (splitting yields the single empty piece), yet
the per-category-counts warning is still emitted (with all counts zero):
the warning call sits outside the `if lines:` guard, refuting the claimed
"if and only if". -/
theorem C4_counterexample :
    Hal.fetch_git_status [] = [[]] ∧
    (Hal.build_mark_kwargs true [] []).toOption.map (fun r => r.warnings) =
      some [Hal.Warning.counts 0 0 0 0 0] := by
  decide

/-- C4 amended: inside a git repository the per-category-counts warning is
always emitted — even for a clean repository — because `str.split` always
yields at least one piece and the warning is unconditional; and for a
status output of exactly one untracked (`??`) line and one modified line
the counts are untracked=1, modified=1, added=0, deleted=0, renamed=0. -/
theorem C4_counts_warning (stdout : Hal.PyStr) (wk : Hal.PyDict Hal.KwVal) :
    (∃ r, Hal.build_mark_kwargs true stdout wk = Except.ok r ∧
      r.warnings =
        [Hal.countsWarning (Hal.git_counts (Hal.fetch_git_status stdout))]) ∧
    Hal.git_counts (Hal.fetch_git_status (Hal.lit "?? foo.txt\n M bar.txt\n")) =
      ⟨1, 1, 0, 0, 0⟩ := by
  constructor
  · have hne := Hal.fetch_git_status_ne_nil stdout
    simp only [Hal.build_mark_kwargs, if_true, if_neg hne]
    exact ⟨_, rfl, rfl⟩
  · decide

/-- C7: the freeze step is a total function of the captured command outcome
(`subprocess.run` is invoked without `check=True`, so no exit status
raises): the archived freeze text keeps exactly the captured stdout lines
without the editable `-e` prefix, in their original order; stderr is
recorded verbatim as `uv_pip_freeze_error.txt` exactly when non-empty; and
under the spec's provider contract a failing command contributes empty
freeze text together with its stderr entry. -/
theorem C7_freeze_step (r : Hal.FreezeResult)
    (hp : Hal.freezeProviderContract r) :
    (Hal.editableFiltered r.stdout).Sublist (Hal.pySplitlines r.stdout) ∧
    (∀ line ∈ Hal.pySplitlines r.stdout,
        (Hal.lit "-e").isPrefixOf line = false →
        line ∈ Hal.editableFiltered r.stdout) ∧
    (∀ line ∈ Hal.editableFiltered r.stdout,
        (Hal.lit "-e").isPrefixOf line = false) ∧
    ("uv_pip_freeze.txt", Hal.freeze_no_editable r.stdout) ∈
      Hal.freeze_entries r ∧
    (r.stderr ≠ [] →
      ("uv_pip_freeze_error.txt", r.stderr) ∈ Hal.freeze_entries r) ∧
    (r.stderr = [] → Hal.freeze_entries r =
      [("uv_pip_freeze.txt", Hal.freeze_no_editable r.stdout)]) ∧
    (r.returncode ≠ 0 →
      Hal.freeze_no_editable r.stdout = [] ∧ r.stderr ≠ []) := by
  refine ⟨List.filter_sublist _, ?_, ?_, ?_, ?_, ?_, ?_⟩
  · intro line hmem hpref
    exact List.mem_filter.2 ⟨hmem, by simp [hpref]⟩
  · intro line hmem
    have h2 := (List.mem_filter.1 hmem).2
    simpa using h2
  · simp [Hal.freeze_entries]
  · intro h
    simp [Hal.freeze_entries, h]
  · intro h
    simp [Hal.freeze_entries, h]
  · intro h
    obtain ⟨h1, h2⟩ := hp h
    refine ⟨?_, h2⟩
    rw [h1]
    decide

/-- Witness for C7 at a failed command outcome (empty stdout, stderr
`err`, exit status 1): the freeze text is empty and the stderr entry is
recorded. -/
theorem C7_witness :
    Hal.freeze_no_editable [] = [] ∧
    ("uv_pip_freeze_error.txt", Hal.lit "err") ∈
      Hal.freeze_entries ⟨[], Hal.lit "err", 1⟩ := by
  have h := C7_freeze_step ⟨[], Hal.lit "err", 1⟩ (fun _ => ⟨rfl, by decide⟩)
  exact ⟨(h.2.2.2.2.2.2 (by decide)).1, h.2.2.2.2.1 (by decide)⟩

/-- C10: in the merged external-paths mapping, entries derived from used
tracked-config keys override both caller-supplied entries and the built-in
`_root_data` / `_output` entries; and a caller-supplied `_root_data` or
`_output` entry is overridden by the corresponding built-in path (those
names cannot be used tracked keys in the same successful run). -/
theorem C10_merge_precedence {V : Type} (caller : Hal.PyDict V)
    (root_data output : V) (paths : Hal.MemoryDict V) (merged : Hal.PyDict V)
    (hnd : paths.used.Nodup)
    (hok : Hal.external_paths_calc caller root_data output paths =
      Except.ok merged) :
    (∀ k ∈ paths.used, Hal.dget merged k = Hal.dget paths.data k) ∧
    ("_root_data" ∉ paths.used →
      Hal.dget merged "_root_data" = some root_data) ∧
    ("_output" ∉ paths.used → Hal.dget merged "_output" = some output) := by
  rcases htr : Hal.trackedPathsDict paths.data (Hal.externalKeysOf paths.used)
    with e | tracked
  · simp only [Hal.external_paths_calc, htr, Except.map] at hok
    exact absurd hok (by simp)
  · simp only [Hal.external_paths_calc, htr, Except.map, Except.ok.injEq] at hok
    subst hok
    obtain ⟨hkeys, hvals⟩ := Hal.trackedPathsDict_spec _ _ _ htr
    have htnd : (tracked.map Prod.fst).Nodup := by
      rw [hkeys]
      exact Hal.externalKeysOf_nodup _ hnd
    have hbnd : (([("_root_data", root_data), ("_output", output)] :
        Hal.PyDict V).map Prod.fst).Nodup := by simp
    refine ⟨?_, ?_, ?_⟩
    · intro k hk
      have hkext : k ∈ Hal.externalKeysOf paths.used :=
        (Hal.mem_externalKeysOf k _).2 hk
      obtain ⟨hdg, v, hv⟩ := hvals k hkext
      rw [Hal.dget_dupdate _ _ _ htnd, hdg, hv]
      rfl
    · intro hnot
      have htn : Hal.dget tracked "_root_data" = none := by
        refine Hal.dget_eq_none _ _ ?_
        rw [hkeys, Hal.mem_externalKeysOf]
        exact hnot
      rw [Hal.dget_dupdate _ _ _ htnd, htn]
      show Hal.dget (Hal.dupdate caller _) "_root_data" = some root_data
      rw [Hal.dget_dupdate _ _ _ hbnd, Hal.dget_cons, if_pos rfl]
      rfl
    · intro hnot
      have htn : Hal.dget tracked "_output" = none := by
        refine Hal.dget_eq_none _ _ ?_
        rw [hkeys, Hal.mem_externalKeysOf]
        exact hnot
      rw [Hal.dget_dupdate _ _ _ htnd, htn]
      show Hal.dget (Hal.dupdate caller _) "_output" = some output
      rw [Hal.dget_dupdate _ _ _ hbnd, Hal.dget_cons,
        if_neg (by decide : ¬("_output" = "_root_data")), Hal.dget_cons,
        if_pos rfl]
      rfl

/-- Witness for C10: the used key `fig` keeps its tracked-config value `7`
over the caller's `5`, and the caller's `_root_data` entry `99` is
overridden by the built-in value `1`. -/
theorem C10_witness :
    ∃ merged, Hal.external_paths_calc
        [("_root_data", 99), ("fig", 5)] 1 2 ⟨[("fig", 7)], ["fig"]⟩ =
        Except.ok merged ∧
      Hal.dget merged "fig" = some 7 ∧
      Hal.dget merged "_root_data" = some 1 ∧
      Hal.dget merged "_output" = some 2 := by
  have h := C10_merge_precedence [("_root_data", 99), ("fig", 5)] 1 2
    ⟨[("fig", 7)], ["fig"]⟩ _ (by decide) rfl
  have h7 : Hal.dget [("fig", (7 : Nat))] "fig" = some 7 := by decide
  exact ⟨_, rfl, (h.1 "fig" (by decide)).trans h7,
    h.2.1 (by decide), h.2.2 (by decide)⟩

/-- C1: whenever a recorded uncaught exception exists, the final state of
`output/_rpr.zip` holds only the single entry `error.txt` with the
formatted traceback — the exception block reopens the same path in write
mode, truncating it, and writes only that entry, so none of the
`scripts/` entries, `watermark.txt`, or the freeze entries remain; without
a recorded exception the archive holds exactly the primary entries. -/
theorem C1_error_archive_overwrites (script_files : List (String × Hal.PyStr))
    (mark : Hal.PyStr) (freeze : Hal.FreezeResult)
    (lockfile : Option Hal.PyStr) (toolbox_files : List (String × Hal.PyStr))
    (tb : List Hal.PyStr) :
    Hal.finalEntries
        (Hal.rprZipEvents script_files mark freeze lockfile toolbox_files
          (some tb)) =
      [("error.txt", List.intercalate [Hal.nl] tb)] ∧
    Hal.finalEntries
        (Hal.rprZipEvents script_files mark freeze lockfile toolbox_files
          none) =
      Hal.primaryEntries script_files mark freeze lockfile toolbox_files := by
  constructor
  · simp [Hal.rprZipEvents, Hal.finalEntries, List.foldl_append, Hal.zipStep]
  · simp only [Hal.rprZipEvents, Hal.finalEntries, List.append_nil,
      List.foldl_append, List.foldl_cons, List.foldl_nil, Hal.zipStep,
      Hal.foldl_zipStep_writes]
    simp

